import Mathlib

/-!
# Verification of `inventory_kit`'s in-memory repository

Shallow embedding of the Rust crate `inventory_kit` (files `src/model.rs`,
`src/error.rs`, `src/utils.rs`, `src/in_memory.rs`).

Modelling conventions:

* The repository is generic over `Item::Id` and `Time`; the claims concern the
  in-memory implementation, whose `InventoryRepository` impl requires
  `u32: From<Time>`, so `Time` is a `u32`-like value.  We instantiate both
  `Item::Id` and `Time` at `Nat` (a `u32` value read as a natural number);
  the `TryInto<u32>` conversion in `validate_time_range` is total for `u32`
  and therefore disappears.
* Rust's `Result<A, E>` is embedded as `RsResult A E`.
* The `HashMap<Item::Id, Vec<Slot>>` is embedded as an association list
  `List (Nat × List AvailabilitySlot)`; lookup takes the first matching key
  and update replaces the first matching entry (a `HashMap` never holds two
  entries with the same key, so on states it can represent the two agree).
* Mutation through `&mut self` is embedded as explicit state passing: each
  mutating operation returns its `Result` together with the whole store,
  which on every early-error return is the unchanged input store, exactly as
  in the source where the early `return` happens before any write.
* `u32` arithmetic: the crate is used with the release profile's wrapping
  semantics (the spec itself describes the §4.4 commit-phase underflow as
  producing a wrapped value rather than a process abort), so the unguarded
  `+=` in `release` and `-=` in `reserve_many`'s commit loop are embedded as
  addition and subtraction modulo `2^32` (`u32add` / `u32sub`); the `-=` in
  `reserve` sits behind the guard `available >= quantity`, where truncated
  `Nat` subtraction coincides with `u32` subtraction.
* The only remaining panic sites are the index expressions `storage[index]`
  in `reserve_many`; `reserve_many` therefore returns an `Option`, with
  `none` standing for an out-of-bounds panic, and panic-freedom is proved.
-/

set_option autoImplicit false

namespace InventoryKit

/-- Rust's `Result<A, E>` (`src/error.rs` uses `Result<(), InventoryError>`). -/
inductive RsResult (A E : Type) where
  | Ok (val : A)
  | Err (err : E)
deriving DecidableEq, Repr

/-- `InventoryError` from `src/error.rs`. -/
inductive InventoryError where
  | NotFound
  | Insufficient
  | Internal (msg : String)
  | InvalidTimeRange
deriving DecidableEq, Repr

/-- `AvailabilitySlot` from `src/model.rs`, with `ItemId = Time = Nat`.
The source field `end` is a Lean keyword and is embedded as `stop`.
`available` is a `u32`, embedded as a `Nat` (well-formed states keep it
below `2^32`, see `SlotWf`). -/
structure AvailabilitySlot where
  item_id : Nat
  start : Nat
  stop : Nat
  available : Nat
deriving DecidableEq, Repr

/-- A slot's `available` field fits in a `u32`. -/
def SlotWf (s : AvailabilitySlot) : Prop := s.available < 4294967296

instance (s : AvailabilitySlot) : Decidable (SlotWf s) := by
  unfold SlotWf; infer_instance

/-- The `storage: HashMap<Item::Id, Vec<AvailabilitySlot>>` field of
`InMemoryInventoryRepository`, as an association list. -/
abbrev Store : Type := List (Nat × List AvailabilitySlot)

/-- Every `available` count in the store fits in a `u32` (true of every state
the Rust type system can represent, since `available: u32`). -/
def StoreWf (st : Store) : Prop :=
  ∀ p ∈ st, ∀ s ∈ p.2, SlotWf s

instance (st : Store) : Decidable (StoreWf st) := by
  unfold StoreWf; infer_instance

/-- `self.storage.get(item_id)` / `get_mut(item_id)`: first entry with the key. -/
def lookupSlots : Store → Nat → Option (List AvailabilitySlot)
  | [], _ => none
  | (k, v) :: rest, id => if k = id then some v else lookupSlots rest id

/-- Writing back the (in Rust: in-place mutated) slot vector of `item_id`:
replaces the first entry with that key, leaves everything else alone. -/
def setSlots : Store → Nat → List AvailabilitySlot → Store
  | [], _, _ => []
  | (k, v) :: rest, id, slots =>
    if k = id then (k, slots) :: rest else (k, v) :: setSlots rest id slots

/-- `insert_availability` from `src/in_memory.rs`: `entry(id).or_default().push(slot)`.
Performs no validation of the range (documented in the source). -/
def insert_availability (st : Store) (item_id from_ to_ quantity : Nat) : Store :=
  match lookupSlots st item_id with
  | none => st ++ [(item_id, [⟨item_id, from_, to_, quantity⟩])]
  | some slots => setSlots st item_id (slots ++ [⟨item_id, from_, to_, quantity⟩])

/-- `validate_time_range` from `src/utils.rs`, at `Time = u32` (so the
`try_into::<u32>()` conversions always succeed and the `Internal` conversion
errors cannot arise).  Checks `end <= start` first, then the hard-coded
domain bound `end >= 2400`. -/
def validate_time_range (start_time end_time : Nat) : RsResult Unit InventoryError :=
  if end_time ≤ start_time then .Err .InvalidTimeRange
  else if 2400 ≤ end_time then .Err (.Internal "Time must be less than 2400")
  else .Ok ()

/-- `u32` wrapping addition (release-profile `+=`). -/
def u32add (a b : Nat) : Nat := (a + b) % 4294967296

/-- `u32` wrapping subtraction (release-profile `-=`); for `a, b < 2^32` this
is `(a - b) mod 2^32` in the two's-complement sense. -/
def u32sub (a b : Nat) : Nat := (a + 4294967296 - b % 4294967296) % 4294967296

/-- The body of `find_slot_mut` combined with the mutation each single-slot
operation performs on the found slot: walks the item's slot vector, applies
`f` applied at the first slot whose `(start, end)` equals `(from_, to_)` exactly, and
reports `NotFound` when no slot matches.  `f` returns either the mutated
slot or an error (the `Insufficient` early return in `reserve`). -/
def mutateFirstSlot (from_ to_ : Nat)
    (f : AvailabilitySlot → RsResult AvailabilitySlot InventoryError) :
    List AvailabilitySlot → RsResult (List AvailabilitySlot) InventoryError
  | [] => .Err .NotFound
  | s :: rest =>
    if s.start = from_ ∧ s.stop = to_ then
      match f s with
      | .Err e => .Err e
      | .Ok s2 => .Ok (s2 :: rest)
    else
      match mutateFirstSlot from_ to_ f rest with
      | .Err e => .Err e
      | .Ok rest2 => .Ok (s :: rest2)

/-- `reserve` from `src/in_memory.rs`: validates the range, finds the exact
slot, checks `available < quantity`, then `available -= quantity`. -/
def reserve (st : Store) (item_id from_ to_ quantity : Nat) :
    RsResult Unit InventoryError × Store :=
  match validate_time_range from_ to_ with
  | .Err e => (.Err e, st)
  | .Ok _ =>
    match lookupSlots st item_id with
    | none => (.Err .NotFound, st)
    | some slots =>
      match mutateFirstSlot from_ to_
          (fun s =>
            if s.available < quantity then .Err .Insufficient
            else .Ok { s with available := s.available - quantity }) slots with
      | .Err e => (.Err e, st)
      | .Ok slots2 => (.Ok (), setSlots st item_id slots2)

/-- `release` from `src/in_memory.rs`: no range validation; finds the exact
slot and does `available += quantity` (wrapping). -/
def release (st : Store) (item_id from_ to_ quantity : Nat) :
    RsResult Unit InventoryError × Store :=
  match lookupSlots st item_id with
  | none => (.Err .NotFound, st)
  | some slots =>
    match mutateFirstSlot from_ to_
        (fun s => .Ok { s with available := u32add s.available quantity }) slots with
    | .Err e => (.Err e, st)
    | .Ok slots2 => (.Ok (), setSlots st item_id slots2)

/-- `adjust` from `src/in_memory.rs`: no range validation; finds the exact
slot and does `available = new_quantity`. -/
def adjust (st : Store) (item_id from_ to_ new_quantity : Nat) :
    RsResult Unit InventoryError × Store :=
  match lookupSlots st item_id with
  | none => (.Err .NotFound, st)
  | some slots =>
    match mutateFirstSlot from_ to_
        (fun s => .Ok { s with available := new_quantity }) slots with
    | .Err e => (.Err e, st)
    | .Ok slots2 => (.Ok (), setSlots st item_id slots2)

/-- `storage.iter().position(|s| s.start == *start && s.end == *end)` together
with the read `storage[index]` of the found slot: index of the first exact
match, paired with that slot. -/
def findSlotIdx (from_ to_ : Nat) :
    List AvailabilitySlot → Option (Nat × AvailabilitySlot)
  | [] => none
  | s :: rest =>
    if s.start = from_ ∧ s.stop = to_ then some (0, s)
    else (findSlotIdx from_ to_ rest).map (fun p => (p.1 + 1, p.2))

/-- The validation phase of `reserve_many`: for each request in order,
resolve the exact slot's index (`NotFound` on failure), check
`storage[index].available < qty` against the original, unmutated vector
(`Insufficient` on failure), and collect `(index, qty)` into `targets`. -/
def validatePhase (slots : List AvailabilitySlot) :
    List (Nat × Nat × Nat) → RsResult (List (Nat × Nat)) InventoryError
  | [] => .Ok []
  | (start, stop, qty) :: rest =>
    match findSlotIdx start stop slots with
    | none => .Err .NotFound
    | some (index, s) =>
      if s.available < qty then .Err .Insufficient
      else
        match validatePhase slots rest with
        | .Err e => .Err e
        | .Ok targets => .Ok ((index, qty) :: targets)

/-- `Vec::set`-style positional update of a slot vector: replaces the element
at the given index, no-op shape-wise elsewhere. -/
def setIdx : List AvailabilitySlot → Nat → AvailabilitySlot → List AvailabilitySlot
  | [], _, _ => []
  | _ :: xs, 0, a => a :: xs
  | x :: xs, n + 1, a => x :: setIdx xs n a

/-- The commit phase of `reserve_many`:
`for (index, qty) in targets { storage[index].available -= qty; }`,
sequential, each write visible in later iterations.  The `storage[index]`
access is a panic site; `none` models the panic. -/
def commitPhase : List AvailabilitySlot → List (Nat × Nat) →
    Option (List AvailabilitySlot)
  | slots, [] => some slots
  | slots, (index, qty) :: rest =>
    match slots.get? index with
    | none => none
    | some s =>
      commitPhase (setIdx slots index { s with available := u32sub s.available qty }) rest

/-- `reserve_many` from `src/in_memory.rs` (`AtomicInventoryOps`): looks up the
item (`NotFound` if absent, before any request is examined), runs the
validation phase, and only if every request passed runs the commit phase.
Performs no time-range validation.  `none` models a panic (it is proved
never in fact to occur). -/
def reserve_many (st : Store) (item_id : Nat) (reqs : List (Nat × Nat × Nat)) :
    Option (RsResult Unit InventoryError × Store) :=
  match lookupSlots st item_id with
  | none => some (.Err .NotFound, st)
  | some slots =>
    match validatePhase slots reqs with
    | .Err e => some (.Err e, st)
    | .Ok targets =>
      match commitPhase slots targets with
      | none => none
      | some slots2 => some (.Ok (), setSlots st item_id slots2)

/-- The part of a slot that no mutating operation may change: everything but
`available`. -/
def slotShape (s : AvailabilitySlot) : Nat × Nat × Nat :=
  (s.item_id, s.start, s.stop)

/-- The part of the store that no mutating operation may change: the keys in
order, and per item the slots' identities and ranges in order. -/
def storeShape (st : Store) : List (Nat × List (Nat × Nat × Nat)) :=
  st.map (fun p => (p.1, p.2.map slotShape))

/-! ## Basic lemmas about the store and the slot-vector primitives -/

theorem get?_lt_length {α : Type} (l : List α) (i : Nat) (x : α)
    (h : l.get? i = some x) : i < l.length := by
  induction l generalizing i with
  | nil => simp [List.get?] at h
  | cons a t ih =>
    cases i with
    | zero => simp
    | succ n =>
      simp only [List.get?_cons_succ] at h
      exact Nat.succ_lt_succ (ih n h)

theorem lookupSlots_setSlots_self (st : Store) (id : Nat)
    (slots slots0 : List AvailabilitySlot) (h : lookupSlots st id = some slots0) :
    lookupSlots (setSlots st id slots) id = some slots := by
  induction st with
  | nil => simp [lookupSlots] at h
  | cons p rest ih =>
    obtain ⟨k, v⟩ := p
    by_cases hk : k = id
    · simp [lookupSlots, setSlots, hk]
    · simp only [lookupSlots, setSlots, if_neg hk] at h ⊢
      exact ih h

theorem lookupSlots_setSlots_ne (st : Store) (id id2 : Nat)
    (slots : List AvailabilitySlot) (h : id2 ≠ id) :
    lookupSlots (setSlots st id slots) id2 = lookupSlots st id2 := by
  induction st with
  | nil => simp [setSlots]
  | cons p rest ih =>
    obtain ⟨k, v⟩ := p
    by_cases hk : k = id
    · subst hk
      simp [lookupSlots, setSlots, Ne.symm h]
    · simp only [setSlots, if_neg hk, lookupSlots]
      by_cases hk2 : k = id2
      · simp [hk2]
      · simp only [if_neg hk2]
        exact ih

theorem setSlots_lookup_self (st : Store) (id : Nat)
    (slots : List AvailabilitySlot) (h : lookupSlots st id = some slots) :
    setSlots st id slots = st := by
  induction st with
  | nil => simp [lookupSlots] at h
  | cons p rest ih =>
    obtain ⟨k, v⟩ := p
    by_cases hk : k = id
    · simp only [lookupSlots, if_pos hk] at h
      simp only [setSlots, if_pos hk]
      cases h
      rfl
    · simp only [lookupSlots, if_neg hk] at h
      simp only [setSlots, if_neg hk]
      rw [ih h]

theorem findSlotIdx_some (a b : Nat) (l : List AvailabilitySlot) (i : Nat)
    (s : AvailabilitySlot) (h : findSlotIdx a b l = some (i, s)) :
    l.get? i = some s ∧ s.start = a ∧ s.stop = b := by
  induction l generalizing i with
  | nil => simp [findSlotIdx] at h
  | cons x rest ih =>
    by_cases hx : x.start = a ∧ x.stop = b
    · simp only [findSlotIdx, if_pos hx, Option.some.injEq, Prod.mk.injEq] at h
      obtain ⟨hi, hs⟩ := h
      subst hi; subst hs
      exact ⟨rfl, hx⟩
    · simp only [findSlotIdx, if_neg hx] at h
      cases hrec : findSlotIdx a b rest with
      | none => rw [hrec] at h; simp at h
      | some p =>
        obtain ⟨j, t⟩ := p
        rw [hrec] at h
        simp only [Option.map_some', Option.some.injEq, Prod.mk.injEq] at h
        obtain ⟨hi, hs⟩ := h
        subst hs
        obtain ⟨hget, hst, hsp⟩ := ih j hrec
        refine ⟨?_, hst, hsp⟩
        rw [← hi]
        simpa using hget

theorem findSlotIdx_lt_length (a b : Nat) (l : List AvailabilitySlot) (i : Nat)
    (s : AvailabilitySlot) (h : findSlotIdx a b l = some (i, s)) : i < l.length :=
  get?_lt_length l i s (findSlotIdx_some a b l i s h).1

theorem setIdx_length (l : List AvailabilitySlot) (i : Nat) (a : AvailabilitySlot) :
    (setIdx l i a).length = l.length := by
  induction l generalizing i with
  | nil => rfl
  | cons x rest ih =>
    cases i with
    | zero => rfl
    | succ n => simpa [setIdx] using ih n

theorem setIdx_get?_self (l : List AvailabilitySlot) (i : Nat) (a : AvailabilitySlot)
    (h : i < l.length) : (setIdx l i a).get? i = some a := by
  induction l generalizing i with
  | nil => simp at h
  | cons x rest ih =>
    cases i with
    | zero => rfl
    | succ n =>
      simp only [setIdx, List.get?_cons_succ]
      exact ih n (by simpa using Nat.lt_of_succ_lt_succ h)

theorem setIdx_get?_ne (l : List AvailabilitySlot) (i : Nat) (a : AvailabilitySlot)
    (j : Nat) (h : j ≠ i) : (setIdx l i a).get? j = l.get? j := by
  induction l generalizing i j with
  | nil => rfl
  | cons x rest ih =>
    cases i with
    | zero =>
      cases j with
      | zero => exact absurd rfl h
      | succ m => rfl
    | succ n =>
      cases j with
      | zero => rfl
      | succ m =>
        simp only [setIdx, List.get?_cons_succ]
        exact ih n m (fun he => h (by rw [he]))

theorem setIdx_map_slotShape (l : List AvailabilitySlot) (i : Nat)
    (s a : AvailabilitySlot) (hget : l.get? i = some s)
    (hsh : slotShape a = slotShape s) :
    (setIdx l i a).map slotShape = l.map slotShape := by
  induction l generalizing i with
  | nil => rfl
  | cons x rest ih =>
    cases i with
    | zero =>
      simp only [List.get?_cons_zero, Option.some.injEq] at hget
      subst hget
      simp [setIdx, hsh]
    | succ n =>
      simp only [List.get?_cons_succ] at hget
      simp [setIdx, ih n hget]

/-! ## Characterisation of `mutateFirstSlot` via `findSlotIdx` -/

theorem mutateFirstSlot_not_found (a b : Nat)
    (f : AvailabilitySlot → RsResult AvailabilitySlot InventoryError)
    (l : List AvailabilitySlot) (h : findSlotIdx a b l = none) :
    mutateFirstSlot a b f l = .Err .NotFound := by
  induction l with
  | nil => rfl
  | cons x rest ih =>
    by_cases hx : x.start = a ∧ x.stop = b
    · simp [findSlotIdx, hx] at h
    · simp only [findSlotIdx, if_neg hx, Option.map_eq_none'] at h
      simp [mutateFirstSlot, if_neg hx, ih h]

theorem mutateFirstSlot_found_ok (a b : Nat)
    (f : AvailabilitySlot → RsResult AvailabilitySlot InventoryError)
    (l : List AvailabilitySlot) (i : Nat) (s s2 : AvailabilitySlot)
    (hf : findSlotIdx a b l = some (i, s)) (hok : f s = .Ok s2) :
    mutateFirstSlot a b f l = .Ok (setIdx l i s2) := by
  induction l generalizing i with
  | nil => simp [findSlotIdx] at hf
  | cons x rest ih =>
    by_cases hx : x.start = a ∧ x.stop = b
    · simp only [findSlotIdx, if_pos hx, Option.some.injEq, Prod.mk.injEq] at hf
      obtain ⟨hi, hs⟩ := hf
      subst hi; subst hs
      simp [mutateFirstSlot, if_pos hx, hok, setIdx]
    · simp only [findSlotIdx, if_neg hx] at hf
      cases hrec : findSlotIdx a b rest with
      | none => rw [hrec] at hf; simp at hf
      | some p =>
        obtain ⟨j, t⟩ := p
        rw [hrec] at hf
        simp only [Option.map_some', Option.some.injEq, Prod.mk.injEq] at hf
        obtain ⟨hi, hs⟩ := hf
        subst hs
        rw [← hi]
        simp only [mutateFirstSlot, if_neg hx, ih j hrec, setIdx]

theorem mutateFirstSlot_found_err (a b : Nat)
    (f : AvailabilitySlot → RsResult AvailabilitySlot InventoryError)
    (l : List AvailabilitySlot) (i : Nat) (s : AvailabilitySlot) (e : InventoryError)
    (hf : findSlotIdx a b l = some (i, s)) (herr : f s = .Err e) :
    mutateFirstSlot a b f l = .Err e := by
  induction l generalizing i with
  | nil => simp [findSlotIdx] at hf
  | cons x rest ih =>
    by_cases hx : x.start = a ∧ x.stop = b
    · simp only [findSlotIdx, if_pos hx, Option.some.injEq, Prod.mk.injEq] at hf
      obtain ⟨hi, hs⟩ := hf
      subst hi; subst hs
      simp [mutateFirstSlot, if_pos hx, herr]
    · simp only [findSlotIdx, if_neg hx] at hf
      cases hrec : findSlotIdx a b rest with
      | none => rw [hrec] at hf; simp at hf
      | some p =>
        obtain ⟨j, t⟩ := p
        rw [hrec] at hf
        simp only [Option.map_some', Option.some.injEq, Prod.mk.injEq] at hf
        obtain ⟨hi, hs⟩ := hf
        subst hs
        simp [mutateFirstSlot, if_neg hx, ih j hrec]

theorem mutateFirstSlot_shape (a b : Nat)
    (f : AvailabilitySlot → RsResult AvailabilitySlot InventoryError)
    (hf : ∀ s s2, f s = .Ok s2 → slotShape s2 = slotShape s)
    (l l2 : List AvailabilitySlot) (h : mutateFirstSlot a b f l = .Ok l2) :
    l2.map slotShape = l.map slotShape := by
  induction l generalizing l2 with
  | nil => simp [mutateFirstSlot] at h
  | cons x rest ih =>
    by_cases hx : x.start = a ∧ x.stop = b
    · simp only [mutateFirstSlot, if_pos hx] at h
      cases hfx : f x with
      | Err e => rw [hfx] at h; simp at h
      | Ok s2 =>
        rw [hfx] at h
        simp only [RsResult.Ok.injEq] at h
        subst h
        simp [hf x s2 hfx]
    · simp only [mutateFirstSlot, if_neg hx] at h
      cases hrec : mutateFirstSlot a b f rest with
      | Err e => rw [hrec] at h; simp at h
      | Ok rest2 =>
        rw [hrec] at h
        simp only [RsResult.Ok.injEq] at h
        subst h
        simp [ih rest2 hrec]

/-! ## `u32` arithmetic facts -/

theorem u32sub_eq_sub (a q : Nat) (hq : q ≤ a) (ha : a < 4294967296) :
    u32sub a q = a - q := by
  unfold u32sub
  omega

theorem u32add_sub_cancel (a q : Nat) (hq : q ≤ a) (ha : a < 4294967296) :
    u32add (a - q) q = a := by
  unfold u32add
  omega

/-! ## Lemmas about the phases of `reserve_many` -/

theorem validatePhase_targets_lt (slots : List AvailabilitySlot)
    (reqs : List (Nat × Nat × Nat)) (ts : List (Nat × Nat))
    (h : validatePhase slots reqs = .Ok ts) :
    ∀ t ∈ ts, t.1 < slots.length := by
  induction reqs generalizing ts with
  | nil =>
    simp only [validatePhase, RsResult.Ok.injEq] at h
    subst h
    intro t ht
    simp at ht
  | cons r rest ih =>
    obtain ⟨start, stop, qty⟩ := r
    cases hfind : findSlotIdx start stop slots with
    | none => simp [validatePhase, hfind] at h
    | some p =>
      obtain ⟨i, s⟩ := p
      by_cases hins : s.available < qty
      · simp [validatePhase, hfind, hins] at h
      · cases hrec : validatePhase slots rest with
        | Err e => simp [validatePhase, hfind, hins, hrec] at h
        | Ok ts2 =>
          simp [validatePhase, hfind, hins, hrec] at h
          subst h
          intro t ht
          cases List.mem_cons.mp ht with
          | inl he => subst he; exact findSlotIdx_lt_length start stop slots i s hfind
          | inr hm => exact ih ts2 hrec t hm

theorem commitPhase_isSome (slots : List AvailabilitySlot) (ts : List (Nat × Nat))
    (h : ∀ t ∈ ts, t.1 < slots.length) : (commitPhase slots ts).isSome = true := by
  induction ts generalizing slots with
  | nil => rfl
  | cons t rest ih =>
    obtain ⟨i, q⟩ := t
    have hi : i < slots.length := h (i, q) (List.mem_cons_self _ _)
    cases hget : slots.get? i with
    | none =>
      rw [List.get?_eq_none] at hget
      omega
    | some s =>
      simp only [commitPhase, hget]
      apply ih
      intro t ht
      rw [setIdx_length]
      exact h t (List.mem_cons_of_mem _ ht)

theorem commitPhase_shape (slots : List AvailabilitySlot) (ts : List (Nat × Nat))
    (slots2 : List AvailabilitySlot) (h : commitPhase slots ts = some slots2) :
    slots2.map slotShape = slots.map slotShape := by
  induction ts generalizing slots with
  | nil =>
    simp only [commitPhase, Option.some.injEq] at h
    subst h; rfl
  | cons t rest ih =>
    obtain ⟨i, q⟩ := t
    simp only [commitPhase] at h
    cases hget : slots.get? i with
    | none => rw [hget] at h; simp at h
    | some s =>
      rw [hget] at h
      rw [ih _ h]
      exact setIdx_map_slotShape slots i s _ hget rfl

theorem get?_mem_of_some {α : Type} (l : List α) (i : Nat) (x : α)
    (h : l.get? i = some x) : x ∈ l := by
  induction l generalizing i with
  | nil => simp [List.get?] at h
  | cons a t ih =>
    cases i with
    | zero =>
      simp only [List.get?_cons_zero, Option.some.injEq] at h
      subst h
      exact List.mem_cons_self _ _
    | succ n =>
      simp only [List.get?_cons_succ] at h
      exact List.mem_cons_of_mem _ (ih n h)

/-- Pointwise relation between a request and the validation target it resolves
to: the target's index is the index of the first exact slot match and the
target's quantity is the request's quantity. -/
def ReqTarget (slots : List AvailabilitySlot) (r : Nat × Nat × Nat)
    (t : Nat × Nat) : Prop :=
  ∃ s, findSlotIdx r.1 r.2.1 slots = some (t.1, s) ∧ t.2 = r.2.2

theorem forall₂_mem_right {α β : Type} (R : α → β → Prop) (l1 : List α)
    (l2 : List β) (h : List.Forall₂ R l1 l2) : ∀ b ∈ l2, ∃ a ∈ l1, R a b := by
  induction h with
  | nil => simp
  | cons hr _ ih =>
    intro b hb
    cases List.mem_cons.mp hb with
    | inl he =>
      subst he
      exact ⟨_, List.mem_cons_self _ _, hr⟩
    | inr hm =>
      obtain ⟨a, ha, har⟩ := ih b hm
      exact ⟨a, List.mem_cons_of_mem _ ha, har⟩

theorem forall₂_pairwise {α β : Type} (R : α → β → Prop) (P : α → α → Prop)
    (Q : β → β → Prop) (hcompat : ∀ a b a2 b2, R a b → R a2 b2 → P a a2 → Q b b2)
    (l1 : List α) (l2 : List β) (hrel : List.Forall₂ R l1 l2)
    (hp : l1.Pairwise P) : l2.Pairwise Q := by
  induction hrel with
  | nil => exact List.Pairwise.nil
  | @cons a b l1t l2t hr hrest ih =>
    obtain ⟨hhead, htail⟩ := List.pairwise_cons.mp hp
    refine List.pairwise_cons.mpr ⟨?_, ih htail⟩
    intro b2 hb2
    obtain ⟨a2, ha2, har2⟩ := forall₂_mem_right R l1t l2t hrest b2 hb2
    exact hcompat a b a2 b2 hr har2 (hhead a2 ha2)

/-- The validation phase succeeds as soon as every request resolves and is
individually satisfiable against the original slot vector, and its targets
are pointwise the resolved requests. -/
theorem validatePhase_ok (slots : List AvailabilitySlot)
    (reqs : List (Nat × Nat × Nat))
    (hres : ∀ r ∈ reqs, ∃ i s, findSlotIdx r.1 r.2.1 slots = some (i, s) ∧
      r.2.2 ≤ s.available) :
    ∃ ts, validatePhase slots reqs = .Ok ts ∧
      List.Forall₂ (ReqTarget slots) reqs ts := by
  induction reqs with
  | nil => exact ⟨[], rfl, List.Forall₂.nil⟩
  | cons r rest ih =>
    obtain ⟨start, stop, qty⟩ := r
    obtain ⟨i, s, hfind, hle⟩ := hres _ (List.mem_cons_self _ _)
    obtain ⟨ts2, hval, hrel⟩ := ih (fun r hr => hres r (List.mem_cons_of_mem _ hr))
    refine ⟨(i, qty) :: ts2, ?_, ?_⟩
    · simp only at hfind
      simp [validatePhase, hfind, Nat.not_lt.mpr hle, hval]
    · exact List.Forall₂.cons ⟨s, hfind, rfl⟩ hrel

/-- The commit phase, applied to targets with pairwise-distinct indices each
of which is satisfiable, succeeds and subtracts each target's quantity from
the slot at its index, touching nothing else. -/
theorem commitPhase_ok (ts : List (Nat × Nat)) (slots : List AvailabilitySlot)
    (hts : ∀ t ∈ ts, ∃ s, slots.get? t.1 = some s ∧ t.2 ≤ s.available ∧ SlotWf s)
    (hdis : ts.Pairwise (fun t t2 => t.1 ≠ t2.1)) :
    ∃ slots2, commitPhase slots ts = some slots2 ∧
      (∀ t ∈ ts, ∀ s, slots.get? t.1 = some s →
        slots2.get? t.1 = some { s with available := s.available - t.2 }) ∧
      (∀ j, (∀ t ∈ ts, j ≠ t.1) → slots2.get? j = slots.get? j) := by
  induction ts generalizing slots with
  | nil => exact ⟨slots, rfl, by simp, fun j _ => rfl⟩
  | cons t rest ih =>
    obtain ⟨i, q⟩ := t
    obtain ⟨s, hget, hle, hwf⟩ := hts (i, q) (List.mem_cons_self _ _)
    have hdishead : ∀ t2 ∈ rest, i ≠ t2.1 :=
      fun t2 ht2 => (List.pairwise_cons.mp hdis).1 t2 ht2
    have hsub : u32sub s.available q = s.available - q := u32sub_eq_sub _ _ hle hwf
    have hget1 : ∀ j, j ≠ i →
        (setIdx slots i { s with available := u32sub s.available q }).get? j =
          slots.get? j :=
      fun j hj => setIdx_get?_ne slots i _ j hj
    obtain ⟨slots2, hcommit, hdec, hframe⟩ :=
      ih (setIdx slots i { s with available := u32sub s.available q })
        (fun t2 ht2 => by
          obtain ⟨s2, hg2, hle2, hwf2⟩ := hts t2 (List.mem_cons_of_mem _ ht2)
          refine ⟨s2, ?_, hle2, hwf2⟩
          rw [hget1 t2.1 (fun he => hdishead t2 ht2 he.symm)]
          exact hg2)
        (List.pairwise_cons.mp hdis).2
    refine ⟨slots2, ?_, ?_, ?_⟩
    · simp only [commitPhase, hget]
      exact hcommit
    · intro t2 ht2 s0 hg0
      cases List.mem_cons.mp ht2 with
      | inl he =>
        subst he
        have hs0 : s0 = s := by
          rw [hget] at hg0
          exact (Option.some.injEq _ _).mp hg0.symm
        subst hs0
        have hi : i < slots.length := get?_lt_length slots i s0 hget
        rw [hframe i hdishead, setIdx_get?_self slots i _ hi, hsub]
      | inr hm =>
        refine hdec t2 hm s0 ?_
        rw [hget1 t2.1 (fun he => hdishead t2 hm he.symm)]
        exact hg0
    · intro j hj
      rw [hframe j (fun t2 ht2 => hj t2 (List.mem_cons_of_mem _ ht2))]
      exact hget1 j (hj (i, q) (List.mem_cons_self _ _))

theorem forall₂_mem_left {α β : Type} (R : α → β → Prop) (l1 : List α)
    (l2 : List β) (h : List.Forall₂ R l1 l2) : ∀ a ∈ l1, ∃ b ∈ l2, R a b := by
  induction h with
  | nil => simp
  | cons hr _ ih =>
    intro a ha
    cases List.mem_cons.mp ha with
    | inl he =>
      subst he
      exact ⟨_, List.mem_cons_self _ _, hr⟩
    | inr hm =>
      obtain ⟨b, hb, hbr⟩ := ih a hm
      exact ⟨b, List.mem_cons_of_mem _ hb, hbr⟩

theorem storeShape_setSlots (st : Store) (id : Nat)
    (slots slots2 : List AvailabilitySlot) (hlk : lookupSlots st id = some slots)
    (hsh : slots2.map slotShape = slots.map slotShape) :
    storeShape (setSlots st id slots2) = storeShape st := by
  induction st with
  | nil => simp [lookupSlots] at hlk
  | cons p rest ih =>
    obtain ⟨k, v⟩ := p
    by_cases hk : k = id
    · simp only [lookupSlots, if_pos hk] at hlk
      cases hlk
      simp [setSlots, if_pos hk, storeShape, hsh]
    · simp only [lookupSlots, if_neg hk] at hlk
      simp only [setSlots, if_neg hk, storeShape, List.map_cons]
      have hrec := ih hlk
      simp only [storeShape] at hrec
      rw [hrec]

theorem storeWf_lookup (st : Store) (id : Nat) (slots : List AvailabilitySlot)
    (hwf : StoreWf st) (hlk : lookupSlots st id = some slots) :
    ∀ s ∈ slots, SlotWf s := by
  induction st with
  | nil => simp [lookupSlots] at hlk
  | cons p rest ih =>
    obtain ⟨k, v⟩ := p
    by_cases hk : k = id
    · simp only [lookupSlots, if_pos hk] at hlk
      cases hlk
      exact hwf (k, slots) (List.mem_cons_self _ _)
    · simp only [lookupSlots, if_neg hk] at hlk
      exact ih (fun p hp => hwf p (List.mem_cons_of_mem _ hp)) hlk

/-- General success case of `reserve_many`: when every request resolves to an
exact slot, is individually satisfiable against the pre-batch vector, and no
two requests resolve to the same slot index, the batch commits and each
target slot is decremented by its request's quantity, nothing else moving. -/
theorem reserve_many_ok (st : Store) (item_id : Nat)
    (slots : List AvailabilitySlot) (reqs : List (Nat × Nat × Nat))
    (hlk : lookupSlots st item_id = some slots)
    (hwf : ∀ s ∈ slots, SlotWf s)
    (hres : ∀ r ∈ reqs, ∃ i s, findSlotIdx r.1 r.2.1 slots = some (i, s) ∧
      r.2.2 ≤ s.available)
    (hdis : reqs.Pairwise (fun r r2 =>
      (findSlotIdx r.1 r.2.1 slots).map Prod.fst ≠
        (findSlotIdx r2.1 r2.2.1 slots).map Prod.fst)) :
    ∃ slots2, reserve_many st item_id reqs = some (.Ok (), setSlots st item_id slots2) ∧
      (∀ r ∈ reqs, ∀ i s, findSlotIdx r.1 r.2.1 slots = some (i, s) →
        slots2.get? i = some { s with available := s.available - r.2.2 }) ∧
      (∀ j, (∀ r ∈ reqs, ∀ p, findSlotIdx r.1 r.2.1 slots = some p → j ≠ p.1) →
        slots2.get? j = slots.get? j) := by
  obtain ⟨ts, hval, hrel⟩ := validatePhase_ok slots reqs hres
  have hts : ∀ t ∈ ts, ∃ s, slots.get? t.1 = some s ∧ t.2 ≤ s.available ∧ SlotWf s := by
    intro t ht
    obtain ⟨r, hr, s, hfind, hqty⟩ := forall₂_mem_right _ _ _ hrel t ht
    obtain ⟨i2, s2, hfind2, hle2⟩ := hres r hr
    rw [hfind] at hfind2
    simp only [Option.some.injEq, Prod.mk.injEq] at hfind2
    obtain ⟨hi2, hs2⟩ := hfind2
    subst hi2
    subst hs2
    have hget := (findSlotIdx_some _ _ slots t.1 s hfind).1
    exact ⟨s, hget, by rw [hqty]; exact hle2, hwf s (get?_mem_of_some slots t.1 s hget)⟩
  have hdists : ts.Pairwise (fun t t2 => t.1 ≠ t2.1) := by
    refine forall₂_pairwise (ReqTarget slots) _ _ ?_ reqs ts hrel hdis
    rintro a b a2 b2 ⟨s, hf, _⟩ ⟨s2, hf2, _⟩ hp he
    apply hp
    rw [hf, hf2, Option.map_some', Option.map_some', he]
  obtain ⟨slots2, hcommit, hdec, hframe⟩ := commitPhase_ok ts slots hts hdists
  refine ⟨slots2, ?_, ?_, ?_⟩
  · simp [reserve_many, hlk, hval, hcommit]
  · intro r hr i s hfind
    obtain ⟨t, ht, s2, hfind2, hqty⟩ := forall₂_mem_left _ _ _ hrel r hr
    rw [hfind] at hfind2
    simp only [Option.some.injEq, Prod.mk.injEq] at hfind2
    obtain ⟨hi2, hs2⟩ := hfind2
    subst hs2
    have hget := (findSlotIdx_some _ _ slots i s hfind).1
    have := hdec t ht s (by rw [← hi2]; exact hget)
    rw [← hi2, hqty] at this
    exact this
  · intro j hj
    refine hframe j ?_
    intro t ht
    obtain ⟨r, hr, s, hfind, _⟩ := forall₂_mem_right _ _ _ hrel t ht
    exact hj r hr (t.1, s) hfind

/-! ## Concrete stores used by the scenario claims -/

/-- The §8 scenario store: item `1`, slot `[1000,1100)` with capacity 5 and
slot `[1100,1200)` with capacity 3. -/
def demoStore : Store := [(1, [⟨1, 1000, 1100, 5⟩, ⟨1, 1100, 1200, 3⟩])]

/-- demoStore is reachable through the public API. -/
theorem demoStore_reachable :
    demoStore = insert_availability (insert_availability [] 1 1000 1100 5) 1 1100 1200 3 := rfl

/-- A store holding a slot whose range is malformed (`end < start`);
reachable because `insert_availability` performs no validation. -/
def badRangeStore : Store := [(1, [⟨1, 1500, 1400, 10⟩])]

/-- badRangeStore is reachable through the public API. -/
theorem badRangeStore_reachable :
    badRangeStore = insert_availability [] 1 1500 1400 10 := rfl

/-- A store with a single slot of capacity 5, used for the duplicate-request
batch of §4.4. -/
def dupStore : Store := [(1, [⟨1, 1000, 1100, 5⟩])]

/-- dupStore is reachable through the public API. -/
theorem dupStore_reachable : dupStore = insert_availability [] 1 1000 1100 5 := rfl

/-! ## Claim theorems -/

/-- C1: `reserve_many` is all-or-nothing: for every store, item id and batch,
if it returns an error (`NotFound` or `Insufficient`, at whatever request
position the failure is detected), the store it hands back is exactly the
pre-call store — no slot of any item has been modified. -/
theorem reserve_many_error_all_or_nothing (st : Store) (item_id : Nat)
    (reqs : List (Nat × Nat × Nat)) (e : InventoryError) (st2 : Store)
    (h : reserve_many st item_id reqs = some (.Err e, st2)) : st2 = st := by
  unfold reserve_many at h
  cases hlk : lookupSlots st item_id with
  | none =>
    simp only [hlk, Option.some.injEq, Prod.mk.injEq] at h
    exact h.2.symm
  | some slots =>
    simp only [hlk] at h
    cases hval : validatePhase slots reqs with
    | Err e2 =>
      simp only [hval, Option.some.injEq, Prod.mk.injEq] at h
      exact h.2.symm
    | Ok ts =>
      simp only [hval] at h
      cases hcp : commitPhase slots ts with
      | none => simp only [hcp] at h; simp at h
      | some slots2 => simp only [hcp] at h; simp at h

/-- C1 witness: a failing batch (second request exceeds availability) hands
back the pre-call store. -/
theorem reserve_many_error_all_or_nothing_witness :
    reserve_many demoStore 1 [(1000, 1100, 2), (1100, 1200, 5)] =
      some (.Err .Insufficient, demoStore) ∧ demoStore = demoStore :=
  ⟨rfl, reserve_many_error_all_or_nothing demoStore 1 [(1000, 1100, 2), (1100, 1200, 5)]
    .Insufficient demoStore rfl⟩

/-- C3 counterexample: with one slot of capacity 5 and the duplicate batch
`[(1000,1100,3), (1000,1100,3)]`, `reserve_many` succeeds and leaves the slot
at the wrapped unsigned value `4294967295`, which — read as an integer — is
not negative: the `u32` count cannot "become negative" as claimed. -/
theorem reserve_many_duplicate_negative_counterexample :
    reserve_many dupStore 1 [(1000, 1100, 3), (1000, 1100, 3)] =
      some (.Ok (), [(1, [⟨1, 1000, 1100, 4294967295⟩])]) ∧
    (0 : Int) ≤ ((4294967295 : Nat) : Int) :=
  ⟨rfl, by decide⟩

/-- C3 amended: a batch with two requests against the same exact slot, each
individually at most the original available count 5 but jointly exceeding
it, passes both requests in the validation phase (each checked against the
original, not-yet-decremented count), applies both subtractions in the
commit phase, and the slot's available count underflows, wrapping modulo
`2^32` to `4294967295` — the unsigned representation of the mathematically
negative result `5 - 3 - 3 = -1` — rather than literally becoming negative. -/
theorem reserve_many_duplicate_overcommit :
    validatePhase [⟨1, 1000, 1100, 5⟩] [(1000, 1100, 3), (1000, 1100, 3)] =
      .Ok [(0, 3), (0, 3)] ∧
    commitPhase [⟨1, 1000, 1100, 5⟩] [(0, 3), (0, 3)] =
      some [⟨1, 1000, 1100, 4294967295⟩] ∧
    reserve_many dupStore 1 [(1000, 1100, 3), (1000, 1100, 3)] =
      some (.Ok (), [(1, [⟨1, 1000, 1100, 4294967295⟩])]) ∧
    u32sub (u32sub 5 3) 3 = 4294967295 ∧
    ((4294967295 : Nat) : Int) = 2 ^ 32 + (5 - 3 - 3 : Int) :=
  ⟨rfl, rfl, rfl, rfl, by decide⟩

/-- C7 counterexample: the claim says `validate_time_range` returns `Ok` for
every pair with `start < end`; but the `2400` domain bound is hard-coded in
the function, so `start = 900, end = 2500` (with `900 < 2500`) is rejected. -/
theorem validate_time_range_pluggable_counterexample :
    (900 : Nat) < 2500 ∧
    validate_time_range 900 2500 = .Err (.Internal "Time must be less than 2400") ∧
    validate_time_range 900 2500 ≠ .Ok () :=
  ⟨by decide, rfl, by simp [validate_time_range]⟩

/-- C7 amended: `validate_time_range` fails with `InvalidTimeRange` when
`end <= start`; for `start < end` it returns `Ok` exactly when `end < 2400`,
the `2400` domain bound being hard-coded (rejected with `Internal`), not a
pluggable policy.  It rejects `start=1500, end=1400` and accepts
`start=900, end=1200`. -/
theorem validate_time_range_spec :
    (∀ s e, e ≤ s → validate_time_range s e = .Err .InvalidTimeRange) ∧
    (∀ s e, s < e → (validate_time_range s e = .Ok () ↔ e < 2400)) ∧
    validate_time_range 1500 1400 = .Err .InvalidTimeRange ∧
    validate_time_range 900 1200 = .Ok () ∧
    validate_time_range 900 2500 = .Err (.Internal "Time must be less than 2400") := by
  refine ⟨?_, ?_, rfl, rfl, rfl⟩
  · intro s e h
    simp [validate_time_range, h]
  · intro s e h
    constructor
    · intro hok
      by_contra hge
      simp [validate_time_range, Nat.not_le.mpr h, Nat.not_lt.mp hge] at hok
    · intro hlt
      simp [validate_time_range, Nat.not_le.mpr h, Nat.not_le.mpr hlt]

/-- C7 witness: the two implications of the amended claim at concrete inputs. -/
theorem validate_time_range_spec_witness :
    validate_time_range 1300 1200 = .Err .InvalidTimeRange ∧
    (validate_time_range 1000 1100 = .Ok () ↔ (1100 : Nat) < 2400) :=
  ⟨validate_time_range_spec.1 1300 1200 (by decide),
   validate_time_range_spec.2.1 1000 1100 (by decide)⟩

/-- C8: no operation panics on caller-supplied input.  In the embedding the
single-slot operations `reserve`, `release` and `adjust` are total functions
returning a `Result` (their arithmetic sites wrap: `release`'s `+=` is
`u32add`, and `reserve`'s `-=` is guarded by `available >= quantity`); the
only panic sites left are `reserve_many`'s `storage[index]` accesses,
modelled by the `Option` layer, and this theorem proves they never fire:
`reserve_many` returns a `Result` normally on every store and batch. -/
theorem reserve_many_no_panic (st : Store) (item_id : Nat)
    (reqs : List (Nat × Nat × Nat)) :
    (reserve_many st item_id reqs).isSome = true := by
  unfold reserve_many
  cases hlk : lookupSlots st item_id with
  | none => rfl
  | some slots =>
    cases hval : validatePhase slots reqs with
    | Err e => simp [hval]
    | Ok ts =>
      have hsome := commitPhase_isSome slots ts (validatePhase_targets_lt slots reqs ts hval)
      cases hcp : commitPhase slots ts with
      | none => rw [hcp] at hsome; simp at hsome
      | some slots2 => simp [hval, hcp]

/-- C10: `reserve_many` checks item existence before touching the requests:
with an empty batch it returns `NotFound` when the item is absent, and `Ok`
with the store unchanged when the item is present. -/
theorem reserve_many_empty_batch (st : Store) (item_id : Nat) :
    (lookupSlots st item_id = none →
      reserve_many st item_id [] = some (.Err .NotFound, st)) ∧
    (∀ slots, lookupSlots st item_id = some slots →
      reserve_many st item_id [] = some (.Ok (), st)) := by
  constructor
  · intro h
    simp [reserve_many, h]
  · intro slots h
    simp [reserve_many, h, validatePhase, commitPhase, setSlots_lookup_self st item_id slots h]

/-- C10 witness: on the scenario store, an empty batch for the unknown item 2
gives `NotFound`, and for the present item 1 gives `Ok` leaving the store
unchanged. -/
theorem reserve_many_empty_batch_witness :
    reserve_many demoStore 2 [] = some (.Err .NotFound, demoStore) ∧
    reserve_many demoStore 1 [] = some (.Ok (), demoStore) :=
  ⟨(reserve_many_empty_batch demoStore 2).1 rfl,
   (reserve_many_empty_batch demoStore 1).2 [⟨1, 1000, 1100, 5⟩, ⟨1, 1100, 1200, 3⟩] rfl⟩

/-- C4: on a store holding an exact slot for `(item_id, from_, to_)` with a
validator-accepted range, `reserve` returns `Insufficient` leaving the whole
store unchanged exactly when the requested quantity exceeds the slot's
available count, and otherwise returns `Ok` having decremented that slot's
available count by the quantity (all other entries untouched, the new store
being the old one with only slot `i` of the item replaced). -/
theorem reserve_exact_slot_spec (st : Store) (item_id from_ to_ quantity i : Nat)
    (slots : List AvailabilitySlot) (s : AvailabilitySlot)
    (hlk : lookupSlots st item_id = some slots)
    (hfind : findSlotIdx from_ to_ slots = some (i, s))
    (hv : validate_time_range from_ to_ = .Ok ()) :
    (s.available < quantity →
      reserve st item_id from_ to_ quantity = (.Err .Insufficient, st)) ∧
    (quantity ≤ s.available →
      reserve st item_id from_ to_ quantity =
        (.Ok (), setSlots st item_id
          (setIdx slots i { s with available := s.available - quantity }))) := by
  constructor
  · intro hlt
    have hm := mutateFirstSlot_found_err from_ to_
      (fun s => if s.available < quantity then .Err .Insufficient
        else .Ok { s with available := s.available - quantity })
      slots i s .Insufficient hfind (by simp [hlt])
    simp [reserve, hv, hlk, hm]
  · intro hle
    have hm := mutateFirstSlot_found_ok from_ to_
      (fun s => if s.available < quantity then .Err .Insufficient
        else .Ok { s with available := s.available - quantity })
      slots i s { s with available := s.available - quantity } hfind
      (by simp [Nat.not_lt.mpr hle])
    simp [reserve, hv, hlk, hm]

/-- C4 witness: on the scenario store, reserving 9 from the slot of capacity
5 fails with `Insufficient` and changes nothing; reserving 2 succeeds and
decrements the slot to 3. -/
theorem reserve_exact_slot_spec_witness :
    reserve demoStore 1 1000 1100 9 = (.Err .Insufficient, demoStore) ∧
    reserve demoStore 1 1000 1100 2 =
      (.Ok (), setSlots demoStore 1
        (setIdx [⟨1, 1000, 1100, 5⟩, ⟨1, 1100, 1200, 3⟩] 0 ⟨1, 1000, 1100, 3⟩)) :=
  ⟨(reserve_exact_slot_spec demoStore 1 1000 1100 9 0
      [⟨1, 1000, 1100, 5⟩, ⟨1, 1100, 1200, 3⟩] ⟨1, 1000, 1100, 5⟩ rfl rfl rfl).1
    (by decide),
   (reserve_exact_slot_spec demoStore 1 1000 1100 2 0
      [⟨1, 1000, 1100, 5⟩, ⟨1, 1100, 1200, 3⟩] ⟨1, 1000, 1100, 5⟩ rfl rfl rfl).2
    (by decide)⟩

/-- C6 counterexample: the claim says `release` validates the range before
mutating; but on a store holding an exact slot with the malformed range
`end = 1400 <= start = 1500`, `release` does not return `InvalidTimeRange` —
it succeeds and mutates the slot (10 becomes 12). -/
theorem range_validation_counterexample :
    (1400 : Nat) ≤ 1500 ∧
    release badRangeStore 1 1500 1400 2 = (.Ok (), [(1, [⟨1, 1500, 1400, 12⟩])]) ∧
    (((.Ok (), [(1, [⟨1, 1500, 1400, 12⟩])]) :
        RsResult Unit InventoryError × Store) ≠
      (.Err .InvalidTimeRange, badRangeStore)) :=
  ⟨by decide, rfl, by decide⟩

/-- C6 amended: of the mutating range-taking operations only `reserve` calls
the time-range validator before mutating (for every store and arguments, a
range the validator rejects makes `reserve` return that error with the store
unchanged); `release`, `adjust` and `reserve_many` perform no range
validation and, given an existing exact slot with `end <= start`, proceed to
mutate it. -/
theorem range_validation_only_on_reserve :
    (∀ st item_id from_ to_ q e, validate_time_range from_ to_ = .Err e →
      reserve st item_id from_ to_ q = (.Err e, st)) ∧
    release badRangeStore 1 1500 1400 2 = (.Ok (), [(1, [⟨1, 1500, 1400, 12⟩])]) ∧
    adjust badRangeStore 1 1500 1400 7 = (.Ok (), [(1, [⟨1, 1500, 1400, 7⟩])]) ∧
    reserve_many badRangeStore 1 [(1500, 1400, 1)] =
      some (.Ok (), [(1, [⟨1, 1500, 1400, 9⟩])]) := by
  refine ⟨?_, rfl, rfl, rfl⟩
  intro st item_id from_ to_ q e h
  simp [reserve, h]

/-- C6 witness: the `reserve` conjunct applied at the malformed range
`(1500, 1400)` on the store holding exactly that slot. -/
theorem range_validation_only_on_reserve_witness :
    reserve badRangeStore 1 1500 1400 2 = (.Err .InvalidTimeRange, badRangeStore) :=
  range_validation_only_on_reserve.1 badRangeStore 1 1500 1400 2 .InvalidTimeRange rfl

/-- C9: frame property — every mutating operation preserves the store's
shape: the item keys in order, the number and order of each item's slots,
and every slot's `item_id`, `start` and `end`; only `available` fields can
change and no slot or item entry is ever deleted. -/
theorem mutating_ops_frame (st : Store) (item_id from_ to_ q : Nat) :
    storeShape (reserve st item_id from_ to_ q).2 = storeShape st ∧
    storeShape (release st item_id from_ to_ q).2 = storeShape st ∧
    storeShape (adjust st item_id from_ to_ q).2 = storeShape st ∧
    (∀ reqs res st2, reserve_many st item_id reqs = some (res, st2) →
      storeShape st2 = storeShape st) := by
  refine ⟨?_, ?_, ?_, ?_⟩
  · unfold reserve
    cases hv : validate_time_range from_ to_ with
    | Err e => rfl
    | Ok u =>
      cases hlk : lookupSlots st item_id with
      | none => rfl
      | some slots =>
        cases hm : mutateFirstSlot from_ to_
            (fun s => if s.available < q then .Err .Insufficient
              else .Ok { s with available := s.available - q }) slots with
        | Err e => simp [hm]
        | Ok slots2 =>
          simp only [hm]
          refine storeShape_setSlots st item_id slots slots2 hlk
            (mutateFirstSlot_shape _ _ _ ?_ slots slots2 hm)
          intro s s2 hss
          by_cases hc : s.available < q
          · simp [hc] at hss
          · simp only [if_neg hc, RsResult.Ok.injEq] at hss
            subst hss
            rfl
  · unfold release
    cases hlk : lookupSlots st item_id with
    | none => rfl
    | some slots =>
      cases hm : mutateFirstSlot from_ to_
          (fun s => .Ok { s with available := u32add s.available q }) slots with
      | Err e => simp [hm]
      | Ok slots2 =>
        simp only [hm]
        refine storeShape_setSlots st item_id slots slots2 hlk
          (mutateFirstSlot_shape _ _ _ ?_ slots slots2 hm)
        intro s s2 hss
        simp only [RsResult.Ok.injEq] at hss
        subst hss
        rfl
  · unfold adjust
    cases hlk : lookupSlots st item_id with
    | none => rfl
    | some slots =>
      cases hm : mutateFirstSlot from_ to_
          (fun s => .Ok { s with available := q }) slots with
      | Err e => simp [hm]
      | Ok slots2 =>
        simp only [hm]
        refine storeShape_setSlots st item_id slots slots2 hlk
          (mutateFirstSlot_shape _ _ _ ?_ slots slots2 hm)
        intro s s2 hss
        simp only [RsResult.Ok.injEq] at hss
        subst hss
        rfl
  · intro reqs res st2 h
    unfold reserve_many at h
    cases hlk : lookupSlots st item_id with
    | none =>
      simp only [hlk, Option.some.injEq, Prod.mk.injEq] at h
      rw [← h.2]
    | some slots =>
      simp only [hlk] at h
      cases hval : validatePhase slots reqs with
      | Err e =>
        simp only [hval, Option.some.injEq, Prod.mk.injEq] at h
        rw [← h.2]
      | Ok ts =>
        simp only [hval] at h
        cases hcp : commitPhase slots ts with
        | none => simp only [hcp] at h; simp at h
        | some slots2 =>
          simp only [hcp, Option.some.injEq, Prod.mk.injEq] at h
          rw [← h.2]
          exact storeShape_setSlots st item_id slots slots2 hlk
            (commitPhase_shape slots ts slots2 hcp)

/-- C9 witness: the frame equalities at the scenario store, with the batch
conjunct applied to a successful concrete batch. -/
theorem mutating_ops_frame_witness :
    storeShape (reserve demoStore 1 1000 1100 2).2 = storeShape demoStore ∧
    storeShape [(1, [⟨1, 1000, 1100, 3⟩, ⟨1, 1100, 1200, 2⟩])] = storeShape demoStore :=
  ⟨(mutating_ops_frame demoStore 1 1000 1100 2).1,
   (mutating_ops_frame demoStore 1 1000 1100 2).2.2.2
     [(1000, 1100, 2), (1100, 1200, 1)] (.Ok ())
     [(1, [⟨1, 1000, 1100, 3⟩, ⟨1, 1100, 1200, 2⟩])] rfl⟩

/-! ## Lemmas for the round-trip law -/

theorem setIdx_setIdx (l : List AvailabilitySlot) (i : Nat) (a b : AvailabilitySlot) :
    setIdx (setIdx l i a) i b = setIdx l i b := by
  induction l generalizing i with
  | nil => rfl
  | cons x rest ih =>
    cases i with
    | zero => rfl
    | succ n => simp [setIdx, ih n]

theorem setIdx_get?_same (l : List AvailabilitySlot) (i : Nat) (a : AvailabilitySlot)
    (h : l.get? i = some a) : setIdx l i a = l := by
  induction l generalizing i with
  | nil => rfl
  | cons x rest ih =>
    cases i with
    | zero =>
      simp only [List.get?_cons_zero, Option.some.injEq] at h
      subst h
      rfl
    | succ n =>
      simp only [List.get?_cons_succ] at h
      simp [setIdx, ih n h]

theorem setSlots_setSlots (st : Store) (id : Nat) (l1 l2 : List AvailabilitySlot) :
    setSlots (setSlots st id l1) id l2 = setSlots st id l2 := by
  induction st with
  | nil => rfl
  | cons p rest ih =>
    obtain ⟨k, v⟩ := p
    by_cases hk : k = id
    · simp [setSlots, hk]
    · simp [setSlots, hk, ih]

theorem findSlotIdx_setIdx (a b : Nat) (l : List AvailabilitySlot) (i : Nat)
    (s s2 : AvailabilitySlot) (hf : findSlotIdx a b l = some (i, s))
    (hstart : s2.start = s.start) (hstop : s2.stop = s.stop) :
    findSlotIdx a b (setIdx l i s2) = some (i, s2) := by
  induction l generalizing i with
  | nil => simp [findSlotIdx] at hf
  | cons x rest ih =>
    by_cases hx : x.start = a ∧ x.stop = b
    · simp only [findSlotIdx, if_pos hx, Option.some.injEq, Prod.mk.injEq] at hf
      obtain ⟨hi, hs⟩ := hf
      subst hi
      subst hs
      simp [setIdx, findSlotIdx, hstart, hstop, hx.1, hx.2]
    · simp only [findSlotIdx, if_neg hx] at hf
      cases hrec : findSlotIdx a b rest with
      | none => rw [hrec] at hf; simp at hf
      | some p =>
        obtain ⟨j, t⟩ := p
        rw [hrec] at hf
        simp only [Option.map_some', Option.some.injEq, Prod.mk.injEq] at hf
        obtain ⟨hi, hs⟩ := hf
        subst hs
        rw [← hi]
        simp [setIdx, findSlotIdx, hx, ih j hrec]

/-- C5 counterexample: the round-trip law as claimed quantifies over every
stored slot, but a slot with the malformed range `(1500, 1400)` can be
stored (insertion validates nothing); for it, `reserve` fails with
`InvalidTimeRange` (changing nothing) while `release` — which never
validates — still adds, so reserve-then-release ends with `available = 12`,
not the prior `10`. -/
theorem reserve_release_roundtrip_counterexample :
    (2 : Nat) ≤ 10 ∧
    reserve badRangeStore 1 1500 1400 2 = (.Err .InvalidTimeRange, badRangeStore) ∧
    release badRangeStore 1 1500 1400 2 = (.Ok (), [(1, [⟨1, 1500, 1400, 12⟩])]) ∧
    (([(1, [⟨1, 1500, 1400, 12⟩])] : Store) ≠ badRangeStore) :=
  ⟨by decide, rfl, rfl, by decide⟩

/-- C5 amended: for every stored slot whose range the validator accepts and
every `q` at most its available count, `reserve(q)` succeeds and the
subsequent `release(q)` on the same exact range succeeds and restores the
whole store (in particular the slot's prior `available` value). -/
theorem reserve_release_roundtrip (st : Store) (item_id from_ to_ q i : Nat)
    (slots : List AvailabilitySlot) (s : AvailabilitySlot)
    (hlk : lookupSlots st item_id = some slots)
    (hfind : findSlotIdx from_ to_ slots = some (i, s))
    (hv : validate_time_range from_ to_ = .Ok ())
    (hq : q ≤ s.available) (hwf : SlotWf s) :
    ∃ st1, reserve st item_id from_ to_ q = (.Ok (), st1) ∧
      release st1 item_id from_ to_ q = (.Ok (), st) := by
  have hm := mutateFirstSlot_found_ok from_ to_
    (fun s => if s.available < q then .Err .Insufficient
      else .Ok { s with available := s.available - q })
    slots i s { s with available := s.available - q } hfind
    (by simp [Nat.not_lt.mpr hq])
  refine ⟨setSlots st item_id (setIdx slots i { s with available := s.available - q }),
    ?_, ?_⟩
  · simp [reserve, hv, hlk, hm]
  · have hlk1 := lookupSlots_setSlots_self st item_id
      (setIdx slots i { s with available := s.available - q }) slots hlk
    have hfind1 := findSlotIdx_setIdx from_ to_ slots i s
      { s with available := s.available - q } hfind rfl rfl
    have hm1 := mutateFirstSlot_found_ok from_ to_
      (fun s => .Ok { s with available := u32add s.available q })
      (setIdx slots i { s with available := s.available - q }) i
      { s with available := s.available - q }
      { s with available := u32add (s.available - q) q } hfind1 rfl
    have hs2 : ({ s with available := u32add (s.available - q) q } : AvailabilitySlot) = s := by
      rw [u32add_sub_cancel _ _ hq hwf]
    simp only [release, hlk1, hm1, setIdx_setIdx, hs2,
      setIdx_get?_same slots i s (findSlotIdx_some from_ to_ slots i s hfind).1,
      setSlots_setSlots, setSlots_lookup_self st item_id slots hlk]

/-- C5 witness: on the scenario store, reserving 2 and releasing 2 on slot
`(1000, 1100)` restores the store. -/
theorem reserve_release_roundtrip_witness :
    ∃ st1, reserve demoStore 1 1000 1100 2 = (.Ok (), st1) ∧
      release st1 1 1000 1100 2 = (.Ok (), demoStore) :=
  reserve_release_roundtrip demoStore 1 1000 1100 2 0
    [⟨1, 1000, 1100, 5⟩, ⟨1, 1100, 1200, 3⟩] ⟨1, 1000, 1100, 5⟩
    rfl rfl rfl (by decide) (by decide)

/-- C2: for every batch in which each request resolves to an existing exact
slot, each request's quantity is at most that slot's pre-batch available
count, and no two requests resolve to the same slot, `reserve_many` returns
`Ok` and subtracts every request's quantity from its slot, leaving all other
slots unchanged; moreover the §8 scenario holds: on slots `(1000,1100)@5`
and `(1100,1200)@3`, batch `[(1000,1100,2),(1100,1200,1)]` succeeds
yielding available `3` and `2`, while `[(1000,1100,2),(1100,1200,5)]` fails
with `Insufficient` leaving both slots at `5` and `3`. -/
theorem reserve_many_batch_property :
    (∀ st item_id slots reqs,
      lookupSlots st item_id = some slots →
      (∀ s ∈ slots, SlotWf s) →
      (∀ r ∈ reqs, ∃ i s, findSlotIdx r.1 r.2.1 slots = some (i, s) ∧
        r.2.2 ≤ s.available) →
      reqs.Pairwise (fun r r2 => (findSlotIdx r.1 r.2.1 slots).map Prod.fst ≠
        (findSlotIdx r2.1 r2.2.1 slots).map Prod.fst) →
      ∃ slots2, reserve_many st item_id reqs =
          some (.Ok (), setSlots st item_id slots2) ∧
        (∀ r ∈ reqs, ∀ i s, findSlotIdx r.1 r.2.1 slots = some (i, s) →
          slots2.get? i = some { s with available := s.available - r.2.2 }) ∧
        (∀ j, (∀ r ∈ reqs, ∀ p, findSlotIdx r.1 r.2.1 slots = some p → j ≠ p.1) →
          slots2.get? j = slots.get? j)) ∧
    reserve_many demoStore 1 [(1000, 1100, 2), (1100, 1200, 1)] =
      some (.Ok (), [(1, [⟨1, 1000, 1100, 3⟩, ⟨1, 1100, 1200, 2⟩])]) ∧
    reserve_many demoStore 1 [(1000, 1100, 2), (1100, 1200, 5)] =
      some (.Err .Insufficient, demoStore) :=
  ⟨fun st item_id slots reqs h1 h2 h3 h4 =>
    reserve_many_ok st item_id slots reqs h1 h2 h3 h4, rfl, rfl⟩

/-- C2 witness: the universal conjunct applied to the scenario store and the
satisfiable batch, every hypothesis discharged concretely. -/
theorem reserve_many_batch_property_witness :
    ∃ slots2, reserve_many demoStore 1 [(1000, 1100, 2), (1100, 1200, 1)] =
        some (.Ok (), setSlots demoStore 1 slots2) ∧
      (∀ r ∈ ([(1000, 1100, 2), (1100, 1200, 1)] : List (Nat × Nat × Nat)),
        ∀ i s, findSlotIdx r.1 r.2.1 [⟨1, 1000, 1100, 5⟩, ⟨1, 1100, 1200, 3⟩] =
          some (i, s) →
        slots2.get? i = some { s with available := s.available - r.2.2 }) ∧
      (∀ j, (∀ r ∈ ([(1000, 1100, 2), (1100, 1200, 1)] : List (Nat × Nat × Nat)),
        ∀ p, findSlotIdx r.1 r.2.1 [⟨1, 1000, 1100, 5⟩, ⟨1, 1100, 1200, 3⟩] =
          some p → j ≠ p.1) →
        slots2.get? j = [⟨1, 1000, 1100, 5⟩, ⟨1, 1100, 1200, 3⟩].get? j) :=
  reserve_many_batch_property.1 demoStore 1
    [⟨1, 1000, 1100, 5⟩, ⟨1, 1100, 1200, 3⟩] [(1000, 1100, 2), (1100, 1200, 1)]
    rfl (by decide)
    (by
      intro r hr
      rcases List.mem_cons.mp hr with h | h
      · subst h
        exact ⟨0, ⟨1, 1000, 1100, 5⟩, rfl, by decide⟩
      · rcases List.mem_cons.mp h with h2 | h2
        · subst h2
          exact ⟨1, ⟨1, 1100, 1200, 3⟩, rfl, by decide⟩
        · simp at h2)
    (by
      refine List.Pairwise.cons ?_ (List.Pairwise.cons ?_ List.Pairwise.nil)
      · intro r hr
        rcases List.mem_cons.mp hr with h | h
        · subst h
          decide
        · simp at h
      · intro r hr
        simp at hr)

end InventoryKit
